import Mathlib

/-!
Verification development for a small HTTP speed-test server (`main.go`).

The Go handlers are embedded shallowly:
* clock readings and elapsed times are rationals (seconds); ping samples are
  rationals (milliseconds), idealising `float64` arithmetic;
* the process-wide `sessions` map guarded by `sm` is a function
  `String → Option Sess`, and each handler is a pure state transformer;
* an HTTP 400 response is the `bad` constructor / `Option.none`;
* the download write loop is driven by an oracle `writes : ℕ → Bool`
  saying whether the i-th `w.Write` call succeeds (per the `io.Writer`
  contract a successful call writes the whole slice; on error the handler
  breaks without counting the failing call's bytes);
* the `results` polling loop observes a trace `snap : ℕ → Sess` of the
  session's fields at poll instants `t : ℕ → ℚ`, with explicit fuel for
  termination (the real loop is bounded by the 30 s deadline).
-/

namespace Blurr

/-- The session record (`type Sess struct`): `LastSent time.Time` (with
`none` for Go's zero time), `Pings []float64` in milliseconds,
`DownloadB`/`UploadB` in bytes per second, `ClientHost`. -/
structure Sess where
  LastSent : Option ℚ
  Pings : List ℚ
  DownloadB : ℚ
  UploadB : ℚ
  ClientHost : String
deriving DecidableEq

/-- The process-wide `sessions` map. -/
def Store : Type := String → Option Sess

/-- A freshly allocated `&Sess{}`: zero time, nil slice, zero rates. -/
def emptySess : Sess := ⟨none, [], 0, 0, ""⟩

/-- The initial empty `sessions` map. -/
def emptyStore : Store := fun _ => none

/-- Writing one key of the `sessions` map (`sessions[sid] = s`). -/
def setSess (st : Store) (sid : String) (s : Sess) : Store :=
  fun k => if k = sid then some s else st k

/-- The digit characters used by `strconv.FormatInt(_, 36)`: 0-9 then a-z. -/
def digitChar36 (d : ℕ) : Char :=
  if d < 10 then Char.ofNat (48 + d) else Char.ofNat (87 + d)

/-- Inverse of `digitChar36` on the 36 digit characters. -/
def charVal36 (c : Char) : ℕ :=
  if c.toNat < 58 then c.toNat - 48 else c.toNat - 87

/-- Little-endian base-36 digits, with explicit fuel (any `fuel ≥ n` gives
the digits of `n`; kept structural so that concrete runs evaluate). -/
def digits36 : ℕ → ℕ → List ℕ
  | 0, _ => []
  | _ + 1, 0 => []
  | fuel + 1, n + 1 => (n + 1) % 36 :: digits36 fuel ((n + 1) / 36)

/-- `mkid` (`strconv.FormatInt(time.Now().UnixNano(), 36)`), as a function of
the nanosecond clock reading: the base-36 rendering, most significant digit
first, with `0` rendered as `"0"`. -/
def mkid (t : ℕ) : String :=
  if t = 0 then String.mk [Char.ofNat 48]
  else String.mk (((digits36 t t).map digitChar36).reverse)

/-- Decoder for `mkid` identifiers, used to prove the encoding injective. -/
def decodeId (s : String) : ℕ :=
  Nat.ofDigits 36 (s.data.reverse.map fun c => (charVal36 c : ℕ))

/-- `idxGet`: get-or-create under the store lock. Returns the record for
`sid` together with the possibly grown map. -/
def idxGet (st : Store) (sid : String) : Sess × Store :=
  match st sid with
  | some s => (s, st)
  | none => (emptySess, setSess st sid emptySess)

/-- The `start` handler: generates `sid := mkid`, get-or-creates the record,
sets `ClientHost` from the form and `LastSent = time.Now()`. Returns the new
session id and the updated store. `tid` is the clock reading consumed by
`mkid`; `now` the one stored into `LastSent`. -/
def startOp (st : Store) (tid : ℕ) (now : ℚ) (ip : String) : String × Store :=
  let sid := mkid tid
  let p := idxGet st sid
  (sid, setSess p.2 sid { p.1 with ClientHost := ip, LastSent := some now })

/-- Outcome of a handler that can answer HTTP 400 (`http.Error(w, _, 400)`). -/
inductive HStatus where
  | ok
  | bad
deriving DecidableEq

/-- The `probe` handler: rejects when `sid == ""` or the parsed counter
`n < 1` (leaving the store untouched — the check precedes `idxGet`);
otherwise get-or-creates the record, appends `(now-LastSent)` in
milliseconds when `LastSent` is not the zero time, and sets
`LastSent = now`. A missing or malformed `n` parses to `0` via
`strconv.Atoi` with its error ignored. -/
def probeOp (st : Store) (sid : String) (n : ℤ) (now : ℚ) : HStatus × Store :=
  if sid = "" ∨ n < 1 then (HStatus.bad, st)
  else
    let p := idxGet st sid
    let s := p.1
    let s' :=
      match s.LastSent with
      | some tl => { s with Pings := s.Pings ++ [(now - tl) * 1000], LastSent := some now }
      | none => { s with LastSent := some now }
    (HStatus.ok, setSess p.2 sid s')

/-- A chain of probe requests `(n, now)` against one session, each feeding the
store produced by the previous one; `none` if any is rejected. -/
def probeChain : Store → String → List (ℤ × ℚ) → Option Store
  | st, _, [] => some st
  | st, sid, p :: rest =>
    match probeOp st sid p.1 p.2 with
    | (HStatus.ok, st') => probeChain st' sid rest
    | (HStatus.bad, _) => none

/-- The fixed 64 KiB write chunk of the download loop. -/
def chunkSize : ℕ := 64 * 1024

/-- Effective download size: `strconv.Atoi` with the error ignored yields `0`
for a missing or malformed parameter (`none`), and any non-positive value is
replaced by the 8 MiB default. -/
def effSize (raw : Option ℤ) : ℕ :=
  let sz := raw.getD 0
  if sz ≤ 0 then 8 * 1024 * 1024 else sz.toNat

/-- The download write loop: starting at write index `i` with `bw` bytes
already written, keep writing `min chunkSize (size - bw)` bytes while
`bw < size`; a failed write breaks out without counting its bytes. `fuel`
bounds the iteration count (each iteration writes at least one byte, so
`size` is always enough). Returns the final `bw`. -/
def dlLoop (writes : ℕ → Bool) (size : ℕ) : ℕ → ℕ → ℕ → ℕ
  | _, bw, 0 => bw
  | i, bw, fuel + 1 =>
    if bw < size then
      if writes i then dlLoop writes size (i + 1) (bw + min chunkSize (size - bw)) fuel
      else bw
    else bw

/-- Bytes written by the download loop run from the start. -/
def dlRun (writes : ℕ → Bool) (size : ℕ) : ℕ :=
  dlLoop writes size 0 0 size

/-- `if elapsed < 1e-9 { elapsed = 1e-9 }`. -/
def clampElapsed (e : ℚ) : ℚ :=
  if e < 1 / 1000000000 then 1 / 1000000000 else e

/-- The `download` handler: streams `effSize raw` bytes (or fewer if a write
fails), computes `bps = bw / max(elapsed, 1e-9)`, and — only when a session
id is present — stores it into the record's `DownloadB`. Returns
`(bytes written, bps, store)`. There is no error path. -/
def downloadOp (st : Store) (sid : String) (raw : Option ℤ) (writes : ℕ → Bool)
    (elapsed : ℚ) : ℕ × ℚ × Store :=
  let size := effSize raw
  let bw := dlRun writes size
  let bps := (bw : ℚ) / clampElapsed elapsed
  if sid = "" then (bw, bps, st)
  else
    let p := idxGet st sid
    (bw, bps, setSess p.2 sid { p.1 with DownloadB := bps })

/-- The `upload` handler: the session id is the form value, falling back to
the query parameter; the record is get-or-created even when both are empty,
`n` uploaded bytes are counted and discarded, and
`UploadB = n / max(elapsed, 1e-9)` is stored. Never rejects. -/
def uploadOp (st : Store) (sidForm sidQuery : String) (n : ℕ) (elapsed : ℚ) : Store :=
  let sid := if sidForm = "" then sidQuery else sidForm
  let p := idxGet st sid
  setSess p.2 sid { p.1 with UploadB := (n : ℚ) / clampElapsed elapsed }

/-- `waitTimeout := 30 * time.Second`, in seconds. -/
def waitTimeout : ℚ := 30

/-- `poll := 150 * time.Millisecond`, in seconds. -/
def pollInterval : ℚ := 3 / 20

/-- The average computed by `results`: running sum divided by the length,
`0` when there are no samples. -/
def codeAvg (l : List ℚ) : ℚ :=
  if 0 < l.length then (l.foldl (fun a v => a + v) 0) / l.length else 0

/-- The squared jitter computed by `results`: running sum of
`(v-avg)*(v-avg)` divided by the length, `0` when there are no samples.
The page renders `math.Sqrt` of this value. -/
def codeVar (l : List ℚ) : ℚ :=
  if 0 < l.length then
    (l.foldl (fun a v => a + (v - codeAvg l) * (v - codeAvg l)) 0) / l.length
  else 0

/-- The rendered results row: client host (falling back to the request's
address when the record has none), average ping, squared jitter, and the two
rates, all read from one locked snapshot of the session. -/
structure Summary where
  Client : String
  AvgMs : ℚ
  JitterSq : ℚ
  DownloadB : ℚ
  UploadB : ℚ
deriving DecidableEq

/-- Builds the summary from one snapshot of the session. -/
def summaryOf (s : Sess) (reqIP : String) : Summary :=
  ⟨if s.ClientHost = "" then reqIP else s.ClientHost,
   codeAvg s.Pings, codeVar s.Pings, s.DownloadB, s.UploadB⟩

/-- The exit condition of the `results` polling loop at poll instant `i`:
`download > 0 || time.Now().After(deadline)`. -/
def rdyAt (snap : ℕ → Sess) (t : ℕ → ℚ) (deadline : ℚ) (i : ℕ) : Bool :=
  decide (0 < (snap i).DownloadB) || decide (deadline < t i)

/-- The polling loop: starting at poll instant `i`, return the first instant
whose snapshot satisfies the exit condition; `none` when the fuel runs out
(the theorems show fuel 202 always suffices at the 150 ms cadence). -/
def resultsExitAux (snap : ℕ → Sess) (t : ℕ → ℚ) (deadline : ℚ) : ℕ → ℕ → Option ℕ
  | _, 0 => none
  | i, fuel + 1 =>
    if rdyAt snap t deadline i then some i else resultsExitAux snap t deadline (i + 1) fuel

/-- The `results` handler: 400 when `sid` is empty; otherwise poll until the
exit condition holds and render the summary from the exiting snapshot.
`t0` is the clock reading taken for `deadline = now + waitTimeout`. -/
def resultsOp (sid : String) (snap : ℕ → Sess) (t : ℕ → ℚ) (t0 : ℚ) (reqIP : String)
    (fuel : ℕ) : Except Unit (Option Summary) :=
  if sid = "" then Except.error ()
  else
    match resultsExitAux snap t (t0 + waitTimeout) 0 fuel with
    | some i => Except.ok (some (summaryOf (snap i) reqIP))
    | none => Except.ok none

/-- One request against the store: the five handlers with the inputs that
determine their store effect. `results` polls through the record pointer,
but its lookup is the get-or-create `idxGet`, which does write the store
for an unknown id (after the empty-sid 400 check), so it is included;
its inputs beyond the session id do not affect the store. -/
inductive Op where
  | start (tid : ℕ) (now : ℚ) (ip : String)
  | probe (sid : String) (n : ℤ) (now : ℚ)
  | download (sid : String) (raw : Option ℤ) (writes : ℕ → Bool) (elapsed : ℚ)
  | upload (sidForm sidQuery : String) (n : ℕ) (elapsed : ℚ)
  | results (sid : String)

/-- The store after one handler invocation. For `results`, an empty sid is
rejected before any lookup, and otherwise the only store write is the
get-or-create `idxGet`; the polling loop reads the record pointer and
never touches the map again. -/
def stepOp (st : Store) : Op → Store
  | Op.start tid now ip => (startOp st tid now ip).2
  | Op.probe sid n now => (probeOp st sid n now).2
  | Op.download sid raw w e => (downloadOp st sid raw w e).2.2
  | Op.upload sf sq n e => uploadOp st sf sq n e
  | Op.results sid => if sid = "" then st else (idxGet st sid).2

/-- Whether the request is a probe. -/
def Op.isProbe : Op → Bool
  | Op.probe _ _ _ => true
  | _ => false

/-- The single session key a request can write (none when it writes no key:
a rejected probe or results, or a download without a session id). -/
def Op.touches : Op → Option String
  | Op.start tid _ _ => some (mkid tid)
  | Op.probe sid n _ => if sid = "" ∨ n < 1 then none else some sid
  | Op.download sid _ _ _ => if sid = "" then none else some sid
  | Op.upload sf sq _ _ => some (if sf = "" then sq else sf)
  | Op.results sid => if sid = "" then none else some sid

/-- The ping list stored under a key (empty when no record exists). -/
def pingsAt (st : Store) (k : String) : List ℚ :=
  match st k with
  | some s => s.Pings
  | none => []

/-- Modelled from the spec: `avg_latency = mean(latency_samples)`, `0` if no
samples. -/
def specMean (l : List ℚ) : ℚ :=
  if l = [] then 0 else l.sum / l.length

/-- Modelled from the spec: the population variance (the square of the
population standard deviation), `0` if no samples. -/
def specPopVar (l : List ℚ) : ℚ :=
  if l = [] then 0 else ((l.map fun v => (v - specMean l) ^ 2).sum) / l.length

end Blurr

namespace Blurr

lemma setSess_self (st : Store) (sid : String) (s : Sess) : setSess st sid s sid = some s := by
  simp [setSess]

lemma setSess_other (st : Store) (sid k : String) (s : Sess) (h : k ≠ sid) :
    setSess st sid s k = st k := by
  simp [setSess, h]

lemma idxGet_snd_self (st : Store) (sid : String) :
    (idxGet st sid).2 sid = some (idxGet st sid).1 := by
  unfold idxGet
  cases h : st sid with
  | some s => simp [h]
  | none => simp [setSess_self]

lemma idxGet_snd_other (st : Store) (sid k : String) (h : k ≠ sid) :
    (idxGet st sid).2 k = st k := by
  unfold idxGet
  cases hs : st sid with
  | some s => simp
  | none => simp [setSess_other _ _ _ _ h]

lemma charVal36_digitChar36 : ∀ d < 36, charVal36 (digitChar36 d) = d := by decide

lemma digits36_eq (fuel : ℕ) : ∀ n ≤ fuel, digits36 fuel n = Nat.digits 36 n := by
  induction fuel with
  | zero =>
    intro n hn
    interval_cases n
    simp [digits36]
  | succ fuel ih =>
    intro n hn
    match n with
    | 0 => simp [digits36]
    | m + 1 =>
      have hdiv : (m + 1) / 36 ≤ fuel := by
        have := Nat.div_lt_self (Nat.succ_pos m) (by norm_num : 1 < 36)
        omega
      rw [digits36, ih _ hdiv, Nat.digits_def' (by norm_num : 1 < 36) (Nat.succ_pos m)]

lemma decode_mkid (t : ℕ) : decodeId (mkid t) = t := by
  by_cases h0 : t = 0
  · subst h0; decide
  · unfold mkid decodeId
    simp only [h0, if_false]
    show Nat.ofDigits 36 ((((digits36 t t).map digitChar36).reverse).reverse.map _) = t
    rw [digits36_eq t t le_rfl, List.reverse_reverse, List.map_map]
    have h : ∀ d ∈ Nat.digits 36 t, (charVal36 ∘ digitChar36) d = id d :=
      fun d hd => charVal36_digitChar36 d (Nat.digits_lt_base (by norm_num) hd)
    rw [List.map_congr_left h, List.map_id, Nat.ofDigits_digits]

lemma mkid_injective : Function.Injective mkid :=
  Function.LeftInverse.injective decode_mkid

lemma mkid_ne_empty (t : ℕ) : mkid t ≠ "" := by
  intro h
  have ht : t = 0 := by
    have hdec := decode_mkid t
    rw [h] at hdec
    have h2 : decodeId "" = 0 := by decide
    rw [h2] at hdec
    exact hdec.symm
  subst ht
  exact absurd h (by decide)

end Blurr

namespace Blurr

lemma probeChain_run (sid : String) (hsid : sid ≠ "") :
    ∀ (ps : List (ℤ × ℚ)) (st : Store) (s : Sess) (tl : ℚ),
      st sid = some s → s.LastSent = some tl →
      (∀ p ∈ ps, 1 ≤ p.1) → List.Chain (· ≤ ·) tl (ps.map Prod.snd) →
      ∃ st' s' newPings, probeChain st sid ps = some st' ∧ st' sid = some s' ∧
        s'.Pings = s.Pings ++ newPings ∧ newPings.length = ps.length ∧
        (∀ x ∈ newPings, 0 ≤ x) := by
  intro ps
  induction ps with
  | nil =>
    intro st s tl hst hls _ _
    exact ⟨st, s, [], rfl, hst, by simp, rfl, by simp⟩
  | cons p rest ih =>
    intro st s tl hst hls hn hchain
    obtain ⟨n, tm⟩ := p
    have hn1 : (1 : ℤ) ≤ n := hn _ (List.mem_cons_self _ _)
    have hreject : ¬(sid = "" ∨ n < 1) := by
      push_neg
      exact ⟨hsid, by omega⟩
    have hchain' := List.chain_cons.mp (by simpa using hchain)
    have htm : tl ≤ tm := hchain'.1
    have hprobe : probeOp st sid n tm =
        (HStatus.ok, setSess st sid
          { s with Pings := s.Pings ++ [(tm - tl) * 1000], LastSent := some tm }) := by
      unfold probeOp idxGet
      rw [if_neg hreject, hst]
      simp [hls]
    have hlook : setSess st sid
        { s with Pings := s.Pings ++ [(tm - tl) * 1000], LastSent := some tm } sid =
        some { s with Pings := s.Pings ++ [(tm - tl) * 1000], LastSent := some tm } :=
      setSess_self _ _ _
    obtain ⟨st', s', tail, hchainEq, hst', hpings, hlen, hpos⟩ :=
      ih (setSess st sid _) _ tm hlook rfl
        (fun q hq => hn q (List.mem_cons_of_mem _ hq)) hchain'.2
    refine ⟨st', s', (tm - tl) * 1000 :: tail, ?_, hst', ?_, by simp [hlen], ?_⟩
    · show probeChain st sid ((n, tm) :: rest) = some st'
      unfold probeChain
      rw [hprobe]
      exact hchainEq
    · rw [hpings]
      simp
    · intro x hx
      rcases List.mem_cons.mp hx with h | h
      · subst h
        have : (0 : ℚ) ≤ tm - tl := by linarith
        positivity
      · exact hpos x h

/-- C1 (amended): for a session created by `start` (which already sets
`LastSent`), a sequence of `N` valid probe requests at non-decreasing times
appends `N` latency samples — the first probe diffs against the timestamp
recorded by `start`, so no probe is skipped — and every sample is
non-negative. -/
theorem probe_samples_after_start
    (st0 : Store) (tid : ℕ) (t0 : ℚ) (ip : String) (ps : List (ℤ × ℚ))
    (hfresh : st0 (mkid tid) = none)
    (hn : ∀ p ∈ ps, 1 ≤ p.1)
    (hchain : List.Chain (· ≤ ·) t0 (ps.map Prod.snd)) :
    ∃ st' s', probeChain (startOp st0 tid t0 ip).2 (startOp st0 tid t0 ip).1 ps = some st' ∧
      st' (mkid tid) = some s' ∧ s'.Pings.length = ps.length ∧ ∀ x ∈ s'.Pings, 0 ≤ x := by
  have hstart : (startOp st0 tid t0 ip).2 (mkid tid) =
      some { emptySess with ClientHost := ip, LastSent := some t0 } := by
    simp only [startOp, idxGet, hfresh]
    simp [setSess]
  obtain ⟨st', s', tail, hrun, hst', hpings, hlen, hpos⟩ :=
    probeChain_run (mkid tid) (mkid_ne_empty tid) ps _ _ t0 hstart rfl hn hchain
  refine ⟨st', s', hrun, hst', ?_, ?_⟩
  · rw [hpings]
    simpa [emptySess] using hlen
  · intro x hx
    rw [hpings] at hx
    rcases List.mem_append.mp hx with h | h
    · simp [emptySess] at h
    · exact hpos x h

/-- C1 counterexample: a session created by `start` at time 0 followed by a
single probe (`N = 1`) at time 1 holds one latency sample, not `N - 1 = 0`:
`start` already set `LastSent`, so the first probe is not skipped. -/
theorem probe_first_sample_cex :
    (probeChain (startOp emptyStore 1 0 "h").2 (startOp emptyStore 1 0 "h").1
        [(1, 1)]).map (fun st => (pingsAt st (startOp emptyStore 1 0 "h").1).length) =
      some 1 ∧ (1 : ℕ) ≠ 1 - 1 := by
  refine ⟨by decide, by decide⟩

/-- Witness for `probe_samples_after_start` at a concrete run. -/
theorem probe_samples_after_start_witness :
    ∃ st' s', probeChain (startOp emptyStore 1 0 "h").2 (startOp emptyStore 1 0 "h").1
        [(1, (1 : ℚ)), (2, 2)] = some st' ∧
      st' (mkid 1) = some s' ∧ s'.Pings.length = 2 ∧ ∀ x ∈ s'.Pings, 0 ≤ x :=
  probe_samples_after_start emptyStore 1 0 "h" [(1, 1), (2, 2)] rfl (by decide)
    (List.Chain.cons (by decide) (List.Chain.cons (by decide) List.Chain.nil))

end Blurr

namespace Blurr

/-- C9: a download request with an empty session id still runs the write
loop and computes a rate, but the session store is returned exactly as it
was: the measured rate is discarded. -/
theorem download_empty_sid_frame (st : Store) (raw : Option ℤ) (w : ℕ → Bool) (e : ℚ) :
    (downloadOp st "" raw w e).2.2 = st ∧
    (downloadOp st "" raw w e).1 = dlRun w (effSize raw) ∧
    (downloadOp st "" raw w e).2.1 = (dlRun w (effSize raw) : ℚ) / clampElapsed e := by
  refine ⟨?_, ?_, ?_⟩ <;> simp [downloadOp]

/-- C10: an upload request with no session id in either the form or the
query is not rejected: the rate lands in the record keyed by the empty
string, shared by all id-less uploads and overwritten last-writer-wins,
and no other key is touched. -/
lemma idxGet_fst_of_some (st : Store) (k : String) (s : Sess) (h : st k = some s) :
    (idxGet st k).1 = s := by
  unfold idxGet
  rw [h]

lemma uploadOp_empty (st : Store) (n : ℕ) (e : ℚ) :
    uploadOp st "" "" n e =
      setSess (idxGet st "").2 ""
        { (idxGet st "").1 with UploadB := (n : ℚ) / clampElapsed e } := by
  simp [uploadOp]

theorem upload_missing_sid_shared_record (st : Store) (n1 n2 : ℕ) (e1 e2 : ℚ) :
    (uploadOp st "" "" n1 e1) "" =
      some { (idxGet st "").1 with UploadB := (n1 : ℚ) / clampElapsed e1 } ∧
    (∀ k, k ≠ "" → uploadOp st "" "" n1 e1 k = st k) ∧
    (uploadOp (uploadOp st "" "" n1 e1) "" "" n2 e2) "" =
      some { (idxGet st "").1 with UploadB := (n2 : ℚ) / clampElapsed e2 } := by
  have h1 : (uploadOp st "" "" n1 e1) "" =
      some { (idxGet st "").1 with UploadB := (n1 : ℚ) / clampElapsed e1 } := by
    rw [uploadOp_empty, setSess_self]
  refine ⟨h1, ?_, ?_⟩
  · intro k hk
    rw [uploadOp_empty, setSess_other _ _ _ _ hk]
    exact idxGet_snd_other st "" k hk
  · rw [uploadOp_empty, setSess_self, idxGet_fst_of_some _ _ _ h1]

/-- C4 (amended): an unknown non-empty session id is never rejected by
probe, download, or upload — each creates a fresh record for it. A request
carrying no session id is rejected (with the store untouched) only by
probe; download with no id proceeds and leaves the store unchanged, and
upload with no id proceeds and records under the empty-string key. -/
theorem unknown_sid_tolerated_missing_sid_split :
    (∀ (st : Store) (sid : String) (n : ℤ) (now : ℚ), sid ≠ "" → 1 ≤ n → st sid = none →
      (probeOp st sid n now).1 = HStatus.ok ∧
      (probeOp st sid n now).2 sid = some { emptySess with LastSent := some now }) ∧
    (∀ (st : Store) (sid : String) (raw : Option ℤ) (w : ℕ → Bool) (e : ℚ),
      sid ≠ "" → st sid = none →
      (downloadOp st sid raw w e).2.2 sid =
        some { emptySess with
          DownloadB := (dlRun w (effSize raw) : ℚ) / clampElapsed e }) ∧
    (∀ (st : Store) (sid : String) (n : ℕ) (e : ℚ), sid ≠ "" → st sid = none →
      (uploadOp st sid "" n e) sid =
        some { emptySess with UploadB := (n : ℚ) / clampElapsed e }) ∧
    (∀ (st : Store) (n : ℤ) (now : ℚ), probeOp st "" n now = (HStatus.bad, st)) ∧
    (∀ (st : Store) (raw : Option ℤ) (w : ℕ → Bool) (e : ℚ),
      (downloadOp st "" raw w e).2.2 = st) ∧
    (∀ (st : Store) (n : ℕ) (e : ℚ),
      (uploadOp st "" "" n e) "" =
        some { (idxGet st "").1 with UploadB := (n : ℚ) / clampElapsed e }) := by
  refine ⟨?_, ?_, ?_, ?_, ?_, ?_⟩
  · intro st sid n now hsid hn hnone
    have hreject : ¬(sid = "" ∨ n < 1) := by
      push_neg
      exact ⟨hsid, by omega⟩
    constructor
    · simp [probeOp, hreject]
    · simp [probeOp, hreject, idxGet, hnone, emptySess, setSess_self, setSess]
  · intro st sid raw w e hsid hnone
    simp [downloadOp, hsid, idxGet, hnone, emptySess, setSess]
  · intro st sid n e hsid hnone
    simp [uploadOp, hsid, idxGet, hnone, emptySess, setSess]
  · intro st n now
    simp [probeOp]
  · intro st raw w e
    simp [downloadOp]
  · intro st n e
    simp [uploadOp, setSess_self]

/-- C4 counterexample: an upload carrying no session id at all is not
rejected and does not leave the store unchanged — it creates a record
under the empty-string key. -/
theorem missing_sid_not_rejected_cex :
    ((uploadOp emptyStore "" "" 1000 2) "").isSome = true ∧
    (emptyStore "").isSome = false := by
  exact ⟨rfl, rfl⟩

/-- Witness for `unknown_sid_tolerated_missing_sid_split` at concrete
inputs. -/
theorem unknown_sid_tolerated_witness :
    (probeOp emptyStore "x" 1 5).1 = HStatus.ok ∧
    (probeOp emptyStore "x" 1 5).2 "x" = some { emptySess with LastSent := some 5 } :=
  unknown_sid_tolerated_missing_sid_split.1 emptyStore "x" 1 5 (by decide) (by decide) rfl

/-- Witness for `upload_missing_sid_shared_record` at concrete inputs. -/
theorem upload_missing_sid_witness :
    uploadOp emptyStore "" "" 1 1 "y" = emptyStore "y" :=
  (upload_missing_sid_shared_record emptyStore 1 2 1 1).2.1 "y" (by decide)

end Blurr

namespace Blurr

lemma dlLoop_zero (w : ℕ → Bool) (size i bw : ℕ) : dlLoop w size i bw 0 = bw := rfl

lemma dlLoop_le (w : ℕ → Bool) (size : ℕ) :
    ∀ (fuel i bw : ℕ), bw ≤ size → dlLoop w size i bw fuel ≤ size := by
  intro fuel
  induction fuel with
  | zero =>
    intro i bw h
    simpa [dlLoop_zero] using h
  | succ fuel ih =>
    intro i bw h
    rw [dlLoop]
    by_cases hbw : bw < size
    · rw [if_pos hbw]
      cases hw : w i
      · simpa using h
      · simp only [if_pos rfl]
        refine ih (i + 1) _ ?_
        simp only [chunkSize]
        omega
    · rw [if_neg hbw]
      exact h

lemma dlLoop_true (size : ℕ) :
    ∀ (fuel i bw : ℕ), bw ≤ size → size - bw ≤ fuel →
      dlLoop (fun _ => true) size i bw fuel = size := by
  intro fuel
  induction fuel with
  | zero =>
    intro i bw h1 h2
    rw [dlLoop_zero]
    omega
  | succ fuel ih =>
    intro i bw h1 h2
    rw [dlLoop]
    by_cases hbw : bw < size
    · simp only [if_pos hbw, if_pos rfl]
      refine ih (i + 1) _ ?_ ?_ <;> simp only [chunkSize] <;> omega
    · rw [if_neg hbw]
      omega

lemma dlLoop_cut (size j : ℕ) :
    ∀ (fuel i bw : ℕ), bw ≤ size → size - bw ≤ fuel →
      dlLoop (fun k => decide (k < j)) size i bw fuel =
        min size (bw + (j - i) * chunkSize) := by
  intro fuel
  induction fuel with
  | zero =>
    intro i bw h1 h2
    rw [dlLoop_zero]
    simp only [chunkSize]
    omega
  | succ fuel ih =>
    intro i bw h1 h2
    rw [dlLoop]
    by_cases hbw : bw < size
    · rw [if_pos hbw]
      by_cases hij : i < j
      · have hd : decide (i < j) = true := by simp [hij]
        simp only [hd, if_true]
        rw [ih (i + 1) (bw + min chunkSize (size - bw)) (by simp only [chunkSize]; omega)
          (by simp only [chunkSize]; omega)]
        simp only [chunkSize]
        omega
      · simp only [hij, decide_False]
        simp only [Bool.false_eq_true, if_false, chunkSize]
        omega
    · rw [if_neg hbw]
      simp only [chunkSize]
      omega

lemma dlRun_le (w : ℕ → Bool) (size : ℕ) : dlRun w size ≤ size :=
  dlLoop_le w size size 0 0 (Nat.zero_le _)

lemma dlRun_true (size : ℕ) : dlRun (fun _ => true) size = size :=
  dlLoop_true size size 0 0 (Nat.zero_le _) (by omega)

lemma dlRun_cut (size j : ℕ) :
    dlRun (fun k => decide (k < j)) size = min size (j * chunkSize) := by
  have := dlLoop_cut size j size 0 0 (Nat.zero_le _) (by omega)
  simpa using this

lemma clampElapsed_pos (e : ℚ) : 0 < clampElapsed e := by
  unfold clampElapsed
  split
  · norm_num
  · rename_i h
    rw [not_lt] at h
    calc (0 : ℚ) < 1 / 1000000000 := by norm_num
    _ ≤ e := h

lemma effSize_pos (raw : Option ℤ) : 0 < effSize raw := by
  rcases raw with _ | z
  · norm_num [effSize]
  · by_cases hz : z ≤ 0
    · norm_num [effSize, hz]
    · simp only [effSize, Option.getD_some]
      rw [if_neg hz]
      omega

lemma downloadOp_eq (st : Store) (sid : String) (raw : Option ℤ) (w : ℕ → Bool) (e : ℚ)
    (hsid : sid ≠ "") :
    downloadOp st sid raw w e =
      (dlRun w (effSize raw), (dlRun w (effSize raw) : ℚ) / clampElapsed e,
        setSess (idxGet st sid).2 sid
          { (idxGet st sid).1 with
            DownloadB := (dlRun w (effSize raw) : ℚ) / clampElapsed e }) := by
  simp [downloadOp, hsid]

/-- C3: the download handler computes the stored rate as
`bytes_written / max(elapsed, 1e-9)`. An uninterrupted transfer writes
exactly `effSize raw` bytes and the recorded rate is strictly positive; a
transfer whose writes fail from the `j`-th call on stops at
`min size (j·chunkSize)` bytes and the rate is computed over those bytes;
the handler always completes and commits the rate to the session. -/
theorem download_rate_formula
    (st : Store) (sid : String) (raw : Option ℤ) (e : ℚ) (hsid : sid ≠ "") :
    (∀ w, (downloadOp st sid raw w e).1 ≤ effSize raw) ∧
    (∀ w, (downloadOp st sid raw w e).2.1 =
      ((downloadOp st sid raw w e).1 : ℚ) / clampElapsed e) ∧
    (downloadOp st sid raw (fun _ => true) e).1 = effSize raw ∧
    0 < (downloadOp st sid raw (fun _ => true) e).2.1 ∧
    (∀ j, (downloadOp st sid raw (fun k => decide (k < j)) e).1 =
      min (effSize raw) (j * chunkSize)) ∧
    (∀ w, ∃ s, (downloadOp st sid raw w e).2.2 sid = some s ∧
      s.DownloadB = ((downloadOp st sid raw w e).1 : ℚ) / clampElapsed e) := by
  refine ⟨?_, ?_, ?_, ?_, ?_, ?_⟩
  · intro w
    rw [downloadOp_eq st sid raw w e hsid]
    exact dlRun_le w _
  · intro w
    rw [downloadOp_eq st sid raw w e hsid]
  · rw [downloadOp_eq st sid raw _ e hsid]
    exact dlRun_true _
  · rw [downloadOp_eq st sid raw _ e hsid]
    have h1 : (0 : ℚ) < (dlRun (fun _ => true) (effSize raw) : ℚ) := by
      rw [dlRun_true]
      exact_mod_cast effSize_pos raw
    exact div_pos h1 (clampElapsed_pos e)
  · intro j
    rw [downloadOp_eq st sid raw _ e hsid]
    exact dlRun_cut _ j
  · intro w
    rw [downloadOp_eq st sid raw w e hsid]
    exact ⟨_, setSess_self _ _ _, rfl⟩

/-- Witness for `download_rate_formula` at concrete inputs. -/
theorem download_rate_formula_witness :
    (∀ w, (downloadOp emptyStore "d" (some 5) w 1).1 ≤ effSize (some 5)) ∧
    (∀ w, (downloadOp emptyStore "d" (some 5) w 1).2.1 =
      ((downloadOp emptyStore "d" (some 5) w 1).1 : ℚ) / clampElapsed 1) ∧
    (downloadOp emptyStore "d" (some 5) (fun _ => true) 1).1 = effSize (some 5) ∧
    0 < (downloadOp emptyStore "d" (some 5) (fun _ => true) 1).2.1 ∧
    (∀ j, (downloadOp emptyStore "d" (some 5) (fun k => decide (k < j)) 1).1 =
      min (effSize (some 5)) (j * chunkSize)) ∧
    (∀ w, ∃ s, (downloadOp emptyStore "d" (some 5) w 1).2.2 "d" = some s ∧
      s.DownloadB = ((downloadOp emptyStore "d" (some 5) w 1).1 : ℚ) / clampElapsed 1) :=
  download_rate_formula emptyStore "d" (some 5) 1 (by decide)

/-- C6: a download request whose size parameter is missing or malformed
(`strconv.Atoi` yields 0 with the error ignored) or non-positive is not
rejected: the effective size is the fixed 8 MiB default and the handler
behaves exactly as if 8 MiB had been requested. -/
theorem download_default_size (raw : Option ℤ)
    (h : raw = none ∨ raw.getD 0 ≤ 0) :
    effSize raw = 8 * 1024 * 1024 ∧
    ∀ (st : Store) (sid : String) (w : ℕ → Bool) (e : ℚ),
      downloadOp st sid raw w e = downloadOp st sid (some (8 * 1024 * 1024)) w e := by
  have hz : raw.getD 0 ≤ 0 := by
    rcases h with h | h
    · subst h
      simp
    · exact h
  have he : effSize raw = 8 * 1024 * 1024 := by
    unfold effSize
    rw [if_pos hz]
  have he2 : effSize (some (8 * 1024 * 1024)) = 8 * 1024 * 1024 := by
    unfold effSize
    norm_num
    decide
  refine ⟨he, fun st sid w e => ?_⟩
  unfold downloadOp
  rw [he, he2]

/-- Witness for `download_default_size` at a malformed concrete size. -/
theorem download_default_size_witness :
    effSize (some (-1)) = 8 * 1024 * 1024 ∧
    downloadOp emptyStore "s" (some (-1)) (fun _ => true) 1 =
      downloadOp emptyStore "s" (some (8 * 1024 * 1024)) (fun _ => true) 1 :=
  ⟨(download_default_size (some (-1)) (by norm_num)).1,
   (download_default_size (some (-1)) (by norm_num)).2 emptyStore "s" (fun _ => true) 1⟩

end Blurr

namespace Blurr

lemma foldl_add (l : List ℚ) (c : ℚ) : l.foldl (fun a v => a + v) c = c + l.sum := by
  induction l generalizing c with
  | nil => simp
  | cons a l ih =>
    rw [List.foldl_cons, ih, List.sum_cons]
    ring

lemma foldl_add_map (f : ℚ → ℚ) (l : List ℚ) (c : ℚ) :
    l.foldl (fun a v => a + f v) c = c + (l.map f).sum := by
  induction l generalizing c with
  | nil => simp
  | cons a l ih =>
    rw [List.foldl_cons, ih, List.map_cons, List.sum_cons]
    ring

lemma codeAvg_eq_specMean (l : List ℚ) : codeAvg l = specMean l := by
  rcases eq_or_ne l [] with h | h
  · subst h
    simp [codeAvg, specMean]
  · have hl : 0 < l.length := List.length_pos.mpr h
    rw [codeAvg, specMean, if_pos hl, if_neg h, foldl_add, zero_add]

lemma codeVar_eq_specPopVar (l : List ℚ) : codeVar l = specPopVar l := by
  rcases eq_or_ne l [] with h | h
  · subst h
    simp [codeVar, specPopVar]
  · have hl : 0 < l.length := List.length_pos.mpr h
    rw [codeVar, specPopVar, if_pos hl, if_neg h]
    have : (fun a v => a + (v - codeAvg l) * (v - codeAvg l)) =
        fun a v => a + (fun w => (w - specMean l) ^ 2) v := by
      funext a v
      rw [codeAvg_eq_specMean]
      ring
    rw [this, foldl_add_map, zero_add]

/-- C5: the summary's average is the arithmetic mean of the samples (0 with
no samples) and its jitter — the square root of the `JitterSq` field — is
the population standard deviation (0 with no samples or one sample); on
`[10, 20, 30]` the mean is exactly 20 and the jitter lies strictly between
8.16 and 8.17. -/
theorem results_summary_stats :
    (∀ (s : Sess) (fb : String), (summaryOf s fb).AvgMs = codeAvg s.Pings ∧
      (summaryOf s fb).JitterSq = codeVar s.Pings) ∧
    (∀ l, codeAvg l = specMean l) ∧
    (∀ l, codeVar l = specPopVar l) ∧
    codeAvg [] = 0 ∧ codeVar [] = 0 ∧
    (∀ x : ℚ, Real.sqrt ((codeVar [x] : ℚ) : ℝ) = 0) ∧
    codeAvg [10, 20, 30] = 20 ∧
    (8.16 : ℝ) < Real.sqrt ((codeVar [10, 20, 30] : ℚ) : ℝ) ∧
    Real.sqrt ((codeVar [10, 20, 30] : ℚ) : ℝ) < 8.17 := by
  have hvar : codeVar [10, 20, 30] = 200 / 3 := by
    norm_num [codeVar, codeAvg]
  have hcast : ((codeVar [10, 20, 30] : ℚ) : ℝ) = 200 / 3 := by
    rw [hvar]
    push_cast
    norm_num
  refine ⟨fun s fb => ⟨rfl, rfl⟩, codeAvg_eq_specMean, codeVar_eq_specPopVar,
    by simp [codeAvg], by simp [codeVar], ?_, ?_, ?_, ?_⟩
  · intro x
    have h1 : codeVar [x] = 0 := by
      norm_num [codeVar, codeAvg]
    rw [h1]
    push_cast
    exact Real.sqrt_zero
  · norm_num [codeAvg]
  · rw [hcast]
    rw [show (8.16 : ℝ) = 204 / 25 by norm_num]
    rw [Real.lt_sqrt (by norm_num)]
    norm_num
  · rw [hcast]
    rw [Real.sqrt_lt' (by norm_num)]
    norm_num

end Blurr

namespace Blurr

lemma pingsAt_setSess_self (st : Store) (sid : String) (s : Sess) :
    pingsAt (setSess st sid s) sid = s.Pings := by
  simp [pingsAt, setSess]

lemma pingsAt_setSess_other (st : Store) (sid k : String) (s : Sess) (hk : k ≠ sid) :
    pingsAt (setSess st sid s) k = pingsAt st k := by
  simp [pingsAt, setSess, hk]

lemma idxGet_fst_pings (st : Store) (sid : String) :
    (idxGet st sid).1.Pings = pingsAt st sid := by
  unfold idxGet pingsAt
  cases h : st sid <;> simp [emptySess]

lemma pingsAt_idxGet (st : Store) (sid k : String) :
    pingsAt (idxGet st sid).2 k = pingsAt st k := by
  unfold idxGet
  cases h : st sid with
  | none =>
    by_cases hk : k = sid
    · subst hk
      simp [pingsAt, setSess, h, emptySess]
    · exact pingsAt_setSess_other st sid k emptySess hk
  | some s => simp [pingsAt]

lemma probeOp_snd_ok (st : Store) (sid : String) (n : ℤ) (now : ℚ)
    (h : ¬(sid = "" ∨ n < 1)) :
    (probeOp st sid n now).2 = setSess (idxGet st sid).2 sid
      (match (idxGet st sid).1.LastSent with
       | some tl => { (idxGet st sid).1 with
            Pings := (idxGet st sid).1.Pings ++ [(now - tl) * 1000], LastSent := some now }
       | none => { (idxGet st sid).1 with LastSent := some now }) := by
  simp only [probeOp, if_neg h]

lemma uploadOp_eq2 (st : Store) (sf sq : String) (n : ℕ) (e : ℚ) :
    uploadOp st sf sq n e =
      setSess (idxGet st (if sf = "" then sq else sf)).2 (if sf = "" then sq else sf)
        { (idxGet st (if sf = "" then sq else sf)).1
            with UploadB := (n : ℚ) / clampElapsed e } := rfl

/-- C7: across all five handlers — start, probe, download, upload, and
results (whose get-or-create lookup can write the store) — every session's
`Pings` list only grows: the new list is the old list followed by some
(possibly empty) suffix, and only a probe request can make that suffix
non-empty. -/
theorem pings_append_only (st : Store) (op : Op) (k : String) :
    ∃ tail, pingsAt (stepOp st op) k = pingsAt st k ++ tail ∧
      (op.isProbe = false → tail = []) := by
  cases op with
  | start tid now ip =>
    refine ⟨[], ?_, fun _ => rfl⟩
    rw [List.append_nil]
    show pingsAt (startOp st tid now ip).2 k = pingsAt st k
    unfold startOp
    by_cases hk : k = mkid tid
    · subst hk
      rw [pingsAt_setSess_self]
      show (idxGet st (mkid tid)).1.Pings = _
      exact idxGet_fst_pings st (mkid tid)
    · rw [pingsAt_setSess_other _ _ _ _ hk]
      exact pingsAt_idxGet st (mkid tid) k
  | probe sid n now =>
    by_cases hrej : sid = "" ∨ n < 1
    · refine ⟨[], ?_, fun _ => rfl⟩
      show pingsAt (probeOp st sid n now).2 k = _
      simp only [probeOp, if_pos hrej]
      simp
    · by_cases hk : k = sid
      · subst hk
        cases hls : (idxGet st k).1.LastSent with
        | some tl =>
          refine ⟨[(now - tl) * 1000], ?_, fun hfalse => by simp [Op.isProbe] at hfalse⟩
          show pingsAt (probeOp st k n now).2 k = _
          rw [probeOp_snd_ok st k n now hrej, hls, pingsAt_setSess_self]
          show (idxGet st k).1.Pings ++ _ = _
          rw [idxGet_fst_pings]
        | none =>
          refine ⟨[], ?_, fun _ => rfl⟩
          rw [List.append_nil]
          show pingsAt (probeOp st k n now).2 k = _
          rw [probeOp_snd_ok st k n now hrej, hls, pingsAt_setSess_self]
          show (idxGet st k).1.Pings = _
          rw [idxGet_fst_pings]
      · refine ⟨[], ?_, fun _ => rfl⟩
        rw [List.append_nil]
        show pingsAt (probeOp st sid n now).2 k = _
        rw [probeOp_snd_ok st sid n now hrej, pingsAt_setSess_other _ _ _ _ hk]
        exact pingsAt_idxGet st sid k
  | download sid raw w e =>
    refine ⟨[], ?_, fun _ => rfl⟩
    rw [List.append_nil]
    show pingsAt (downloadOp st sid raw w e).2.2 k = _
    by_cases hsid : sid = ""
    · subst hsid
      have hst : (downloadOp st "" raw w e).2.2 = st := by simp [downloadOp]
      rw [hst]
    · rw [downloadOp_eq st sid raw w e hsid]
      by_cases hk : k = sid
      · subst hk
        rw [pingsAt_setSess_self]
        show (idxGet st k).1.Pings = _
        rw [idxGet_fst_pings]
      · rw [pingsAt_setSess_other _ _ _ _ hk]
        exact pingsAt_idxGet st sid k
  | upload sf sq n e =>
    refine ⟨[], ?_, fun _ => rfl⟩
    rw [List.append_nil]
    show pingsAt (uploadOp st sf sq n e) k = _
    rw [uploadOp_eq2]
    by_cases hk : k = (if sf = "" then sq else sf)
    · subst hk
      rw [pingsAt_setSess_self]
      show (idxGet st _).1.Pings = _
      rw [idxGet_fst_pings]
    · rw [pingsAt_setSess_other _ _ _ _ hk]
      exact pingsAt_idxGet st _ k
  | results sid =>
    refine ⟨[], ?_, fun _ => rfl⟩
    rw [List.append_nil]
    show pingsAt (if sid = "" then st else (idxGet st sid).2) k = pingsAt st k
    by_cases hsid : sid = ""
    · rw [if_pos hsid]
    · rw [if_neg hsid]
      exact pingsAt_idxGet st sid k

/-- Witness for `pings_append_only` at a concrete request. -/
theorem pings_append_only_witness :
    ∃ tail, pingsAt (stepOp emptyStore (Op.upload "u" "" 3 1)) "u" =
      pingsAt emptyStore "u" ++ tail ∧
      ((Op.upload "u" "" 3 1).isProbe = false → tail = []) :=
  pings_append_only emptyStore (Op.upload "u" "" 3 1) "u"

/-- C8 (amended): session identifiers generated at distinct clock readings
are distinct (the base-36 encoding is injective), and a request never
mutates the record of any key other than the single key it addresses. Two
sessions created within the same nanosecond, however, share one identifier
and hence one record (see the counterexample). -/
theorem session_independence :
    (∀ t1 t2 : ℕ, t1 ≠ t2 → mkid t1 ≠ mkid t2) ∧
    (∀ (st : Store) (op : Op) (k : String), op.touches ≠ some k → stepOp st op k = st k) := by
  constructor
  · intro t1 t2 hne heq
    exact hne (mkid_injective heq)
  · intro st op k hk
    cases op with
    | start tid now ip =>
      have hkne : k ≠ mkid tid := by
        intro h
        exact hk (by simp [Op.touches, h])
      show (startOp st tid now ip).2 k = st k
      change setSess _ _ _ k = st k
      rw [setSess_other _ _ _ _ hkne]
      exact idxGet_snd_other st (mkid tid) k hkne
    | probe sid n now =>
      by_cases hrej : sid = "" ∨ n < 1
      · show (probeOp st sid n now).2 k = st k
        simp [probeOp, if_pos hrej]
      · have hkne : k ≠ sid := by
          intro h
          exact hk (by simp [Op.touches, if_neg hrej, h])
        show (probeOp st sid n now).2 k = st k
        rw [probeOp_snd_ok st sid n now hrej, setSess_other _ _ _ _ hkne]
        exact idxGet_snd_other st sid k hkne
    | download sid raw w e =>
      show (downloadOp st sid raw w e).2.2 k = st k
      by_cases hsid : sid = ""
      · subst hsid
        simp [downloadOp]
      · have hkne : k ≠ sid := by
          intro h
          exact hk (by simp [Op.touches, hsid, h])
        rw [downloadOp_eq st sid raw w e hsid]
        change setSess _ _ _ k = st k
        rw [setSess_other _ _ _ _ hkne]
        exact idxGet_snd_other st sid k hkne
    | upload sf sq n e =>
      have hkne : k ≠ (if sf = "" then sq else sf) := by
        intro h
        exact hk (by simp [Op.touches, h])
      show uploadOp st sf sq n e k = st k
      rw [uploadOp_eq2, setSess_other _ _ _ _ hkne]
      exact idxGet_snd_other st _ k hkne
    | results sid =>
      show (if sid = "" then st else (idxGet st sid).2) k = st k
      by_cases hsid : sid = ""
      · rw [if_pos hsid]
      · rw [if_neg hsid]
        have hkne : k ≠ sid := by
          intro h
          exact hk (by simp [Op.touches, hsid, h])
        exact idxGet_snd_other st sid k hkne

/-- C8 counterexample: two sessions created by `start` within the same
nanosecond (clock reading 7) receive the same identifier, and the second
creation overwrites the first record's `ClientHost` — operations on the
"second" session mutate the "first" one's record. -/
theorem concurrent_start_collision_cex :
    (startOp emptyStore 7 0 "A").1 = (startOp (startOp emptyStore 7 0 "A").2 7 1 "B").1 ∧
    ((startOp (startOp emptyStore 7 0 "A").2 7 1 "B").2
        (startOp emptyStore 7 0 "A").1).map Sess.ClientHost = some "B" := by
  exact ⟨rfl, rfl⟩

/-- Witness for `session_independence` at concrete inputs. -/
theorem session_independence_witness :
    mkid 0 ≠ mkid 1 ∧ stepOp emptyStore (Op.probe "a" 1 0) "b" = emptyStore "b" :=
  ⟨session_independence.1 0 1 (by decide),
   session_independence.2 emptyStore (Op.probe "a" 1 0) "b" (by decide)⟩

end Blurr

namespace Blurr

lemma exitAux_sound (snap : ℕ → Sess) (t : ℕ → ℚ) (deadline : ℚ) :
    ∀ (fuel start i : ℕ), resultsExitAux snap t deadline start fuel = some i →
      start ≤ i ∧ rdyAt snap t deadline i = true ∧
      ∀ j, start ≤ j → j < i → rdyAt snap t deadline j = false := by
  intro fuel
  induction fuel with
  | zero =>
    intro start i h
    simp [resultsExitAux] at h
  | succ fuel ih =>
    intro start i h
    rw [resultsExitAux] at h
    cases hr : rdyAt snap t deadline start with
    | true =>
      rw [hr, if_pos rfl] at h
      obtain rfl : start = i := by simpa using h
      exact ⟨le_rfl, hr, fun j h1 h2 => absurd (lt_of_le_of_lt h1 h2) (lt_irrefl _)⟩
    | false =>
      rw [hr] at h
      simp only [Bool.false_eq_true, if_false] at h
      obtain ⟨h1, h2, h3⟩ := ih (start + 1) i h
      refine ⟨by omega, h2, fun j hj1 hj2 => ?_⟩
      rcases eq_or_lt_of_le hj1 with rfl | hlt
      · exact hr
      · exact h3 j (by omega) hj2

lemma exitAux_term (snap : ℕ → Sess) (t : ℕ → ℚ) (deadline : ℚ) :
    ∀ (fuel start k : ℕ), k < fuel → rdyAt snap t deadline (start + k) = true →
      ∃ i, resultsExitAux snap t deadline start fuel = some i ∧ i ≤ start + k := by
  intro fuel
  induction fuel with
  | zero =>
    intro start k hk
    omega
  | succ fuel ih =>
    intro start k hk hr
    rw [resultsExitAux]
    cases h0 : rdyAt snap t deadline start with
    | true =>
      exact ⟨start, by rw [if_pos rfl], by omega⟩
    | false =>
      have hk0 : k ≠ 0 := by
        intro h
        subst h
        rw [Nat.add_zero] at hr
        rw [h0] at hr
        exact Bool.false_ne_true hr
      obtain ⟨i, heq, hle⟩ := ih (start + 1) (k - 1) (by omega) (by
        have : start + 1 + (k - 1) = start + k := by omega
        rw [this]
        exact hr)
      refine ⟨i, ?_, by omega⟩
      simp only [Bool.false_eq_true, if_false]
      exact heq

/-- C2: with `download_rate` still unset, `results` returns only once the
rate has become positive or the 30 s deadline has passed — never earlier —
and it always terminates (202 poll instants at the 150 ms cadence always
suffice), overrunning the deadline by at most one poll interval; given a
session id it always produces a summary and never an error. -/
theorem results_bounded_wait
    (sid : String) (snap : ℕ → Sess) (t : ℕ → ℚ) (t0 : ℚ) (reqIP : String) (fuel : ℕ)
    (hsid : sid ≠ "")
    (ht0 : t 0 = t0)
    (hstep : ∀ i, t (i + 1) = t i + pollInterval)
    (hfuel : 202 ≤ fuel) :
    ∃ i, resultsOp sid snap t t0 reqIP fuel = Except.ok (some (summaryOf (snap i) reqIP)) ∧
      (0 < (snap i).DownloadB ∨ t0 + waitTimeout < t i) ∧
      (∀ j, j < i → ¬(0 < (snap j).DownloadB ∨ t0 + waitTimeout < t j)) ∧
      t i ≤ t0 + waitTimeout + pollInterval := by
  have htf : ∀ k, t k = t0 + k * pollInterval := by
    intro k
    induction k with
    | zero => simpa using ht0
    | succ k ihk =>
      rw [hstep k, ihk]
      push_cast
      ring
  have hrdy201 : rdyAt snap t (t0 + waitTimeout) 201 = true := by
    simp only [rdyAt, Bool.or_eq_true, decide_eq_true_eq]
    right
    rw [htf 201]
    unfold waitTimeout pollInterval
    norm_num
  obtain ⟨i, heq, hle⟩ :=
    exitAux_term snap t (t0 + waitTimeout) fuel 0 201 (by omega) (by simpa using hrdy201)
  obtain ⟨-, hri, hprev⟩ := exitAux_sound snap t (t0 + waitTimeout) fuel 0 i heq
  refine ⟨i, ?_, ?_, ?_, ?_⟩
  · simp [resultsOp, hsid, heq]
  · simpa only [rdyAt, Bool.or_eq_true, decide_eq_true_eq] using hri
  · intro j hj
    have := hprev j (Nat.zero_le j) hj
    intro hcon
    rw [show rdyAt snap t (t0 + waitTimeout) j =
        (decide (0 < (snap j).DownloadB) || decide (t0 + waitTimeout < t j)) from rfl] at this
    rcases hcon with hc | hc
    · simp [hc] at this
    · simp [hc] at this
  · match i with
    | 0 =>
      rw [ht0]
      unfold waitTimeout pollInterval
      linarith
    | m + 1 =>
      have hm := hprev m (Nat.zero_le m) (by omega)
      have hmt : ¬(t0 + waitTimeout < t m) := by
        intro hc
        rw [show rdyAt snap t (t0 + waitTimeout) m =
            (decide (0 < (snap m).DownloadB) || decide (t0 + waitTimeout < t m)) from rfl] at hm
        simp [hc] at hm
      rw [hstep m]
      push_neg at hmt
      linarith

/-- Concrete trace for the witness of `results_bounded_wait`: the rate is
already positive at every poll instant. -/
def wSnap : ℕ → Sess := fun _ => { emptySess with DownloadB := 1 }

/-- Concrete poll instants for the witness: exact 150 ms cadence from 0. -/
def wT : ℕ → ℚ := fun i => (i : ℚ) * pollInterval

/-- Witness for `results_bounded_wait` on a concrete trace. -/
theorem results_bounded_wait_witness :
    ∃ i, resultsOp "x" wSnap wT 0 "r" 202 = Except.ok (some (summaryOf (wSnap i) "r")) ∧
      (0 < (wSnap i).DownloadB ∨ 0 + waitTimeout < wT i) ∧
      (∀ j, j < i → ¬(0 < (wSnap j).DownloadB ∨ 0 + waitTimeout < wT j)) ∧
      wT i ≤ 0 + waitTimeout + pollInterval :=
  results_bounded_wait "x" wSnap wT 0 "r" 202 (by decide)
    (by simp [wT])
    (fun i => by simp [wT, Nat.cast_succ, add_mul])
    (by decide)

end Blurr
